import Mathlib

/-!
Verification of the `release` utility: a shallow embedding of its semver
model (`parseSemver`, `bump`, `String`), its git gateway helpers
(`git`, `gitshortlog`, `gittag`) and the `release` pipeline, together with
theorems settling the specification's claims.

Go strings are modelled as `List Char`; Go `int` / `int64` as `Int` with the
`strconv.ParseInt` 64-bit range check made explicit; fallible operations
return `Option` / `Except`; a Go runtime panic is a distinguished `crash`
outcome.  External subprocess invocations are modelled by passing in the
observed behaviour of the external tool (exit error, captured stdout and
stderr) explicitly.
-/

/-- Go `r >= '0' && r <= '9'` on a rune (code-point comparison). -/
def isDigitGo (c : Char) : Bool := 48 ≤ c.toNat && c.toNat ≤ 57

/-- The decimal digit character for `d` (`0 ≤ d < 10`). -/
def digitChar (d : Nat) : Char := Char.ofNat (48 + d)

/-- The digit-accumulation loop of Go `strconv.ParseUint` (base 10):
left-to-right, `n = n*10 + (c - '0')`, failing on a non-digit. -/
def digitsLoop : List Char → Nat → Option Nat
  | [], acc => some acc
  | c :: cs, acc =>
    if isDigitGo c then digitsLoop cs (acc * 10 + (c.toNat - 48)) else none

/-- Go `strconv.ParseUint(s, 10, _)` digit parsing: empty input is an error. -/
def parseUintGo : List Char → Option Nat
  | [] => none
  | c :: cs => digitsLoop (c :: cs) 0

/-- Go `strconv.ParseInt(s, 10, 64)`: optional leading sign, decimal digits,
64-bit signed range check (positive values up to `2^63 - 1`, negative down
to `-2^63`). -/
def parseIntGo (s : List Char) : Option Int :=
  match s with
  | [] => none
  | c :: cs =>
    if c = '+' then
      match parseUintGo cs with
      | none => none
      | some v => if v ≤ 2 ^ 63 - 1 then some (Int.ofNat v) else none
    else if c = '-' then
      match parseUintGo cs with
      | none => none
      | some v => if v ≤ 2 ^ 63 then some (-(Int.ofNat v)) else none
    else
      match parseUintGo (c :: cs) with
      | none => none
      | some v => if v ≤ 2 ^ 63 - 1 then some (Int.ofNat v) else none

/-- Decimal rendering of a natural number, as produced by Go `fmt` `%d`. -/
def natRepr (n : Nat) : List Char :=
  if n = 0 then ['0'] else (Nat.digits 10 n).reverse.map digitChar

/-- Decimal rendering of an integer, as produced by Go `fmt` `%d`. -/
def intRepr (n : Int) : List Char :=
  if n < 0 then '-' :: natRepr n.natAbs else natRepr n.toNat

/-- Split off the prefix of `s` before the first occurrence of `sep`;
the second component is `none` when `sep` does not occur. -/
def breakOn (sep : Char) : List Char → List Char × Option (List Char)
  | [] => ([], none)
  | c :: cs =>
    if c = sep then ([], some cs)
    else
      let r := breakOn sep cs
      (c :: r.1, r.2)

/-- Go `strings.SplitN(s, sep, n)` for single-character separators:
at most `n` pieces, the last piece being the unsplit remainder. -/
def splitN (sep : Char) : Nat → List Char → List (List Char)
  | 0, _ => []
  | 1, s => [s]
  | n + 2, s =>
    match breakOn sep s with
    | (a, none) => [a]
    | (a, some rest) => a :: splitN sep (n + 1) rest

/-- The third-segment scan of `parseSemver`: split `part` at its first
non-digit character into `(part[:j], part[j:])`. -/
def spanDigits : List Char → List Char × List Char
  | [] => ([], [])
  | c :: cs =>
    if isDigitGo c then
      let r := spanDigits cs
      (c :: r.1, r.2)
    else ([], c :: cs)

/-- The `semver` struct of `main.go`. -/
structure Semver where
  major : Int
  minor : Int
  patch : Int
  prerelease : List Char
  build : List Char
deriving DecidableEq, Repr

/-- The `for i, part := range parts` loop of `parseSemver`: segment `i = 2`
is first split at its first non-digit character (the remainder becoming the
qualifier tail), each numeric part goes through `strconv.ParseInt`, and the
result is stored into the field selected by `i`. -/
def segLoop : Nat → List (List Char) → Semver → List Char → Option (Semver × List Char)
  | _, [], sem, tl => some (sem, tl)
  | i, part :: rest, sem, tl =>
    match parseIntGo (if i = 2 then (spanDigits part).1 else part) with
    | none => none
    | some n =>
      segLoop (i + 1) rest
        (if i = 0 then { sem with major := n }
         else if i = 1 then { sem with minor := n }
         else if i = 2 then { sem with patch := n }
         else sem)
        (if i = 2 then (spanDigits part).2 else tl)

/-- Outcome of `parseSemver`: a returned `semver`, a returned error
(`strconv` failure or `errInvalidSemver`), or a runtime panic. -/
inductive ParseResult where
  | crash : ParseResult
  | err : ParseResult
  | ok : Semver → ParseResult
deriving DecidableEq, Repr

/-- Which accumulator the tail-scanning pointer `buf` designates. -/
inductive Buf where
  | pre : Buf
  | build : Buf
deriving DecidableEq, Repr

/-- The `for _, r := range tail` loop of `parseSemver`: `-` retargets the
pointer at the prerelease buffer, `+` at the build buffer, any other
character is appended to the currently designated buffer (`none` models the
initial nil pointer, whose dereference would panic). -/
def tailLoop : List Char → Option Buf → List Char → List Char → Option (List Char × List Char)
  | [], _, p, b => some (p, b)
  | c :: cs, buf, p, b =>
    if c = '-' then tailLoop cs (some Buf.pre) p b
    else if c = '+' then tailLoop cs (some Buf.build) p b
    else
      match buf with
      | none => none
      | some Buf.pre => tailLoop cs (some Buf.pre) (p ++ [c]) b
      | some Buf.build => tailLoop cs (some Buf.build) p (b ++ [c])

/-- The body of `parseSemver` after the leading-`v` strip: split on `.` into
at most three segments, run the segment loop, then analyse the qualifier
tail (which must begin with `-` or `+`). -/
def parseCore (s' : List Char) : ParseResult :=
  match segLoop 0 (splitN '.' 3 s') ⟨0, 0, 0, [], []⟩ [] with
  | none => ParseResult.err
  | some (sem, tl) =>
    match tl with
    | [] => ParseResult.ok sem
    | t0 :: ts =>
      if t0 ≠ '-' ∧ t0 ≠ '+' then ParseResult.err
      else
        match tailLoop (t0 :: ts) none [] [] with
        | none => ParseResult.crash
        | some (p, b) => ParseResult.ok { sem with prerelease := p, build := b }

/-- `parseSemver` of `main.go`.  It reads `s[0]` with no length guard, so the
empty string is a runtime panic (index out of range), not an error return. -/
def parseSemver (s : List Char) : ParseResult :=
  match s with
  | [] => ParseResult.crash
  | c0 :: rest => parseCore (if c0 = 'v' then rest else c0 :: rest)

/-- The `version` release-kind enumeration (`patch`, `minor`, `major`). -/
inductive VKind where
  | patch : VKind
  | minor : VKind
  | major : VKind
deriving DecidableEq, Repr

/-- `(*semver).bump` of `main.go`: clear both qualifiers, then advance the
field selected by the kind, resetting the lower-order fields. -/
def bump (sem : Semver) (v : VKind) : Semver :=
  let sem' := { sem with prerelease := ([] : List Char), build := ([] : List Char) }
  match v with
  | VKind.patch => { sem' with patch := sem'.patch + 1 }
  | VKind.minor => { sem' with patch := 0, minor := sem'.minor + 1 }
  | VKind.major => { sem' with patch := 0, minor := 0, major := sem'.major + 1 }

/-- `(*semver).String` of `main.go`:
`v{major}.{minor}.{patch}` then `-prerelease` and `+build` when non-empty. -/
def semverString (sem : Semver) : List Char :=
  ('v' :: intRepr sem.major) ++ '.' :: intRepr sem.minor ++ '.' :: intRepr sem.patch
    ++ (if sem.prerelease = [] then [] else '-' :: sem.prerelease)
    ++ (if sem.build = [] then [] else '+' :: sem.build)

/-- The error value returned by `cmd.Run()` (or another library call) itself,
e.g. an `exec.ExitError` whose text is `exit status N`.  Its `message` is the
text `err.Error()` would produce. -/
structure ExecError where
  message : List Char
deriving DecidableEq, Repr

/-- Observed behaviour of one external subprocess invocation: the error from
`cmd.Run()` (`none` for a zero exit), and the bytes written to stdout and
stderr. -/
structure CmdResult where
  err : Option ExecError
  stdout : List Char
  stderr : List Char
deriving DecidableEq, Repr

/-- `strings.Split(s, "\n")[0]`: the prefix of `s` before its first newline
(the whole of `s` when it has none). -/
def firstLine (s : List Char) : List Char := (breakOn '\n' s).1

/-- The errors the pipeline can return, by provenance. -/
inductive Err where
  | editorNotSet : Err
  | proc : ExecError → Err
  | toolMsg : List Char → Err
  | parse : Err
deriving DecidableEq, Repr

/-- The `git` helper of `main.go`: stdout and stderr are captured; a failed
run is reported as `errors.New` of the first line of the captured stderr,
and an empty string is returned in place of stdout. -/
def gitModel (res : CmdResult) : Except (List Char) (List Char) :=
  match res.err with
  | some _ => Except.error (firstLine res.stderr)
  | none => Except.ok res.stdout

/-- `gitshortlog` of `main.go`: a temp-file creation error is returned as-is;
a failed `git shortlog` run is reported as `errors.New` of the first line of
the captured stderr; on success the changelog text (the subprocess stdout,
which the code streams into the temp file) is returned. -/
def gitshortlogModel (tempErr : Option ExecError) (res : CmdResult) :
    Except Err (List Char) :=
  match tempErr with
  | some e => Except.error (Err.proc e)
  | none =>
    match res.err with
    | some _ => Except.error (Err.toolMsg (firstLine res.stderr))
    | none => Except.ok res.stdout

/-- `gittag` of `main.go`: stdin/stdout/stderr are inherited from the
process (nothing is captured) and the error of `cmd.Run()` is returned
unchanged. -/
def gittagModel (res : CmdResult) : Option ExecError := res.err

/-- `openInEditor` of `main.go`: a configuration error when `$EDITOR` is
empty, otherwise the editor subprocess error (if any) unchanged. -/
def openInEditorModel (editor : List Char) (runRes : Option ExecError) : Option Err :=
  if editor = [] then some Err.editorNotSet
  else
    match runRes with
    | some e => some (Err.proc e)
    | none => none

/-- Whether a scanned line is skipped by the notes loop of `release`:
`len(line) > 0 && line[0] == '#'`. -/
def isComment : List Char → Bool
  | '#' :: _ => true
  | _ => false

/-- The notes loop of `release`: every scanned line not starting with `#` is
written back followed by a newline (`fmt.Fprintln`). -/
def collectNotes : List (List Char) → List Char
  | [] => []
  | l :: ls => if isComment l then collectNotes ls else (l ++ ['\n']) ++ collectNotes ls

/-- Split a text into the lines a `bufio.Scanner` would produce: tokens
between newlines, with no empty token after a final newline. -/
def linesOfAux : List Char → List Char → List (List Char)
  | [], cur => if cur = [] then [] else [cur]
  | c :: cs, cur => if c = '\n' then cur :: linesOfAux cs [] else linesOfAux cs (cur ++ [c])

/-- The lines of a text, scanner-style. -/
def linesOf (s : List Char) : List (List Char) := linesOfAux s []

/-- Go `strings.TrimSuffix(s, "\n")`: drop one trailing newline if present. -/
def trimSuffixNl (s : List Char) : List Char :=
  if s.getLast? = some '\n' then s.dropLast else s

/-- The literal `"HEAD"`. -/
def headRev : List Char := ['H', 'E', 'A', 'D']

/-- The literal `"..HEAD"` appended to the previous tag. -/
def dotdotHead : List Char := ['.', '.'] ++ headRev

/-- Outcome of the previous-version resolution step. -/
inductive ResolveRes where
  | crash : ResolveRes
  | fail : Err → ResolveRes
  | ok : Semver → List Char → ResolveRes
deriving DecidableEq, Repr

/-- Lines 246–259 of `main.go`: `revrange` starts as `"HEAD"`;
`git describe --abbrev=0` is run; only when it returns **no** error is its
output trimmed, parsed and used (a parse failure aborting); when `git
describe` returns any error at all, the error is discarded and the zero
version with the `"HEAD"` range is kept. -/
def resolvePrev (res : CmdResult) : ResolveRes :=
  match gitModel res with
  | Except.error _ => ResolveRes.ok ⟨0, 0, 0, [], []⟩ headRev
  | Except.ok out =>
    let prev := trimSuffixNl out
    match parseSemver prev with
    | ParseResult.crash => ResolveRes.crash
    | ParseResult.err => ResolveRes.fail Err.parse
    | ParseResult.ok sem => ResolveRes.ok sem (prev ++ dotdotHead)

/-- Lines 264–275 of `main.go`: when `-info` was requested, run
`git log -n 1 --format=%h`, store its output as `build`, and drop the last
character of a non-empty result; a failed run aborts (after `git` has
substituted the empty string for the output). -/
def applyBuild (info : Bool) (res : CmdResult) (sem : Semver) : Except Err Semver :=
  if info then
    match gitModel res with
    | Except.ok out =>
      Except.ok { sem with build := if out = [] then out else out.dropLast }
    | Except.error m => Except.error (Err.toolMsg m)
  else Except.ok sem

/-- The behaviour of every external collaborator consumed by one `release`
run: temp files, `$EDITOR`, the edited notes buffer, the scanner, and each
git subprocess (those taking the revision range or the tag name are
functions of that argument). -/
structure Env where
  tempErr : Option ExecError
  editor : List Char
  editorRes : Option ExecError
  scanErr : Option ExecError
  notesLines : List (List Char)
  describe : CmdResult
  logres : CmdResult
  changelogTempErr : Option ExecError
  shortlogRun : List Char → CmdResult
  tagRun : List Char → Option ExecError
  archiveRun : List Char → CmdResult

/-- What a successful `release` run produced. -/
structure ReleaseOk where
  sem : Semver
  revrange : List Char
  message : List Char
  tag : List Char
deriving DecidableEq, Repr

/-- Outcome of `release`. -/
inductive RRes where
  | crash : RRes
  | fail : Err → RRes
  | ok : ReleaseOk → RRes
deriving DecidableEq, Repr

/-- The literal `"\nChangelog:\n\n"` written between notes and changelog. -/
def changelogSep : List Char :=
  ['\n', 'C', 'h', 'a', 'n', 'g', 'e', 'l', 'o', 'g', ':', '\n', '\n']

/-- `release` of `main.go`: create the notes temp file, run the editor,
scan the buffer dropping `#` lines, resolve the previous version via
`git describe`, bump, set the prerelease label, optionally fetch build
metadata, collect the shortlog for the range, assemble the tag message,
create the annotated tag, create the archive. -/
def release (next : VKind) (info : Bool) (prerelease : List Char) (env : Env) : RRes :=
  match env.tempErr with
  | some e => RRes.fail (Err.proc e)
  | none =>
    match openInEditorModel env.editor env.editorRes with
    | some e => RRes.fail e
    | none =>
      match env.scanErr with
      | some e => RRes.fail (Err.proc e)
      | none =>
        match resolvePrev env.describe with
        | ResolveRes.crash => RRes.crash
        | ResolveRes.fail e => RRes.fail e
        | ResolveRes.ok sem0 revrange =>
          match applyBuild info env.logres { bump sem0 next with prerelease := prerelease } with
          | Except.error e => RRes.fail e
          | Except.ok sem2 =>
            match gitshortlogModel env.changelogTempErr (env.shortlogRun revrange) with
            | Except.error e => RRes.fail e
            | Except.ok changelog =>
              match env.tagRun (semverString sem2) with
              | some e => RRes.fail (Err.proc e)
              | none =>
                match gitModel (env.archiveRun (semverString sem2)) with
                | Except.error m => RRes.fail (Err.toolMsg m)
                | Except.ok _ =>
                  RRes.ok ⟨sem2, revrange,
                    collectNotes env.notesLines ++ changelogSep ++ changelog,
                    semverString sem2⟩

theorem digitChar_spec : ∀ d : Nat, d < 10 →
    isDigitGo (digitChar d) = true ∧ (digitChar d).toNat - 48 = d ∧
    digitChar d ≠ '.' ∧ digitChar d ≠ '-' ∧ digitChar d ≠ '+' ∧ digitChar d ≠ 'v' := by
  decide

theorem natRepr_chars (n : Nat) : ∀ c ∈ natRepr n, ∃ d, d < 10 ∧ c = digitChar d := by
  intro c hc
  unfold natRepr at hc
  by_cases h : n = 0
  · rw [if_pos h] at hc
    simp only [List.mem_singleton] at hc
    exact ⟨0, by norm_num, by rw [hc]; rfl⟩
  · rw [if_neg h] at hc
    obtain ⟨d, hd, rfl⟩ := List.mem_map.mp hc
    refine ⟨d, ?_, rfl⟩
    exact Nat.digits_lt_base (by norm_num) (List.mem_reverse.mp hd)

theorem natRepr_all_digits (n : Nat) : ∀ c ∈ natRepr n, isDigitGo c = true := by
  intro c hc
  obtain ⟨d, hd, rfl⟩ := natRepr_chars n c hc
  exact (digitChar_spec d hd).1

theorem natRepr_no_dot (n : Nat) : '.' ∉ natRepr n := by
  intro hc
  obtain ⟨d, hd, hdc⟩ := natRepr_chars n '.' hc
  exact (digitChar_spec d hd).2.2.1 hdc.symm

theorem natRepr_ne_nil (n : Nat) : natRepr n ≠ [] := by
  unfold natRepr
  by_cases h : n = 0
  · rw [if_pos h]; simp
  · rw [if_neg h]
    simp [Nat.digits_ne_nil_iff_ne_zero.mpr h]

theorem natRepr_head (n : Nat) :
    ∃ c t, natRepr n = c :: t ∧ isDigitGo c = true ∧ c ≠ 'v' ∧ c ≠ '+' ∧ c ≠ '-' := by
  cases hn : natRepr n with
  | nil => exact absurd hn (natRepr_ne_nil n)
  | cons c t =>
    have hc : c ∈ natRepr n := by rw [hn]; simp
    obtain ⟨d, hd, rfl⟩ := natRepr_chars n c hc
    obtain ⟨h1, _, _, h4, h5, h6⟩ := digitChar_spec d hd
    exact ⟨digitChar d, t, rfl, h1, h6, h5, h4⟩

theorem digitsLoop_map (l : List Nat) (h : ∀ d ∈ l, d < 10) :
    ∀ acc : Nat, digitsLoop (l.map digitChar) acc
      = some (l.foldl (fun a d => a * 10 + d) acc) := by
  induction l with
  | nil => intro acc; rfl
  | cons d ds ih =>
    intro acc
    have hd := h d (by simp)
    obtain ⟨h1, h2, _⟩ := digitChar_spec d hd
    simp only [List.map_cons, digitsLoop, h1, if_true, h2, List.foldl_cons]
    exact ih (fun x hx => h x (by simp [hx])) _

theorem foldl_reverse_ofDigits (l : List Nat) :
    ∀ acc : Nat, l.reverse.foldl (fun a d => a * 10 + d) acc
      = acc * 10 ^ l.length + Nat.ofDigits 10 l := by
  induction l with
  | nil => intro acc; simp
  | cons d ds ih =>
    intro acc
    simp only [List.reverse_cons, List.foldl_append, ih, List.foldl_cons, List.foldl_nil,
      Nat.ofDigits_cons, List.length_cons, pow_succ, Nat.cast_id]
    ring

theorem parseUintGo_natRepr (n : Nat) : parseUintGo (natRepr n) = some n := by
  obtain ⟨c, t, hct, _, _, _, _⟩ := natRepr_head n
  have hloop : digitsLoop (natRepr n) 0 = some n := by
    unfold natRepr
    by_cases h : n = 0
    · rw [if_pos h, h]; rfl
    · rw [if_neg h]
      have hlt : ∀ d ∈ (Nat.digits 10 n).reverse, d < 10 := fun d hd =>
        Nat.digits_lt_base (by norm_num) (List.mem_reverse.mp hd)
      rw [digitsLoop_map _ hlt 0]
      rw [foldl_reverse_ofDigits (Nat.digits 10 n) 0]
      simp [Nat.ofDigits_digits]
  rw [hct] at hloop ⊢
  exact hloop

theorem parseIntGo_natRepr (n : Nat) (h : n < 2 ^ 63) :
    parseIntGo (natRepr n) = some (Int.ofNat n) := by
  obtain ⟨c, t, hct, _, _, hp, hm⟩ := natRepr_head n
  have hu := parseUintGo_natRepr n
  rw [hct] at hu ⊢
  simp only [parseIntGo, if_neg hp, if_neg hm, hu]
  rw [if_pos (by omega)]

theorem breakOn_not_mem (sep : Char) (l : List Char) (h : sep ∉ l) :
    breakOn sep l = (l, none) := by
  induction l with
  | nil => rfl
  | cons c cs ih =>
    have hc : ¬c = sep := fun hcs => h (by rw [hcs]; simp)
    have hcs : sep ∉ cs := fun hm => h (by simp [hm])
    simp only [breakOn, if_neg hc, ih hcs]

theorem breakOn_append (sep : Char) (l r : List Char) (h : sep ∉ l) :
    breakOn sep (l ++ sep :: r) = (l, some r) := by
  induction l with
  | nil => simp [breakOn]
  | cons c cs ih =>
    have hc : ¬c = sep := fun hcs => h (by rw [hcs]; simp)
    have hcs : sep ∉ cs := fun hm => h (by simp [hm])
    simp only [List.cons_append, breakOn, if_neg hc, List.append_eq, ih hcs]

theorem splitN3_two (A B : List Char) (hA : '.' ∉ A) (hB : '.' ∉ B) :
    splitN '.' 3 (A ++ '.' :: B) = [A, B] := by
  show splitN '.' (1 + 2) (A ++ '.' :: B) = [A, B]
  simp only [splitN, breakOn_append '.' A B hA]
  simp only [splitN, breakOn_not_mem '.' B hB]

theorem splitN3_three (A B C : List Char) (hA : '.' ∉ A) (hB : '.' ∉ B) :
    splitN '.' 3 (A ++ '.' :: (B ++ '.' :: C)) = [A, B, C] := by
  show splitN '.' (1 + 2) (A ++ '.' :: (B ++ '.' :: C)) = [A, B, C]
  simp only [splitN, breakOn_append '.' A (B ++ '.' :: C) hA]
  simp only [splitN, breakOn_append '.' B C hB]

theorem spanDigits_all (l : List Char) (h : ∀ c ∈ l, isDigitGo c = true) :
    spanDigits l = (l, []) := by
  induction l with
  | nil => rfl
  | cons c cs ih =>
    have hc := h c (by simp)
    simp only [spanDigits, hc, if_true, ih (fun x hx => h x (by simp [hx]))]

theorem spanDigits_split (l : List Char) (c0 : Char) (r : List Char)
    (hl : ∀ c ∈ l, isDigitGo c = true) (hc : isDigitGo c0 = false) :
    spanDigits (l ++ c0 :: r) = (l, c0 :: r) := by
  induction l with
  | nil => simp [spanDigits, hc]
  | cons c cs ih =>
    have hcd := hl c (by simp)
    simp only [List.cons_append, spanDigits, hcd, if_true, List.append_eq,
      ih (fun x hx => hl x (by simp [hx]))]

theorem spanDigits_fst_digits (l : List Char) :
    ∀ c ∈ (spanDigits l).1, isDigitGo c = true := by
  induction l with
  | nil => intro c hc; simp [spanDigits] at hc
  | cons c0 cs ih =>
    intro c hc
    by_cases h0 : isDigitGo c0
    · simp only [spanDigits, h0, if_true, List.mem_cons] at hc
      rcases hc with rfl | hc
      · exact h0
      · exact ih c hc
    · simp only [spanDigits, h0] at hc
      simp at hc

theorem tailLoop_pre (l : List Char) (h : ∀ c ∈ l, c ≠ '-' ∧ c ≠ '+') :
    ∀ rest p b, tailLoop (l ++ rest) (some Buf.pre) p b
      = tailLoop rest (some Buf.pre) (p ++ l) b := by
  induction l with
  | nil => intro rest p b; simp
  | cons c cs ih =>
    intro rest p b
    obtain ⟨h1, h2⟩ := h c (by simp)
    simp only [List.cons_append, tailLoop, if_neg h1, if_neg h2, List.append_eq]
    rw [ih (fun x hx => h x (by simp [hx]))]
    simp

theorem tailLoop_build (l : List Char) (h : ∀ c ∈ l, c ≠ '-' ∧ c ≠ '+') :
    ∀ rest p b, tailLoop (l ++ rest) (some Buf.build) p b
      = tailLoop rest (some Buf.build) p (b ++ l) := by
  induction l with
  | nil => intro rest p b; simp
  | cons c cs ih =>
    intro rest p b
    obtain ⟨h1, h2⟩ := h c (by simp)
    simp only [List.cons_append, tailLoop, if_neg h1, if_neg h2, List.append_eq]
    rw [ih (fun x hx => h x (by simp [hx]))]
    simp

theorem intRepr_ofNat (n : Nat) : intRepr (Int.ofNat n) = natRepr n := by
  unfold intRepr
  rw [Int.ofNat_eq_natCast, if_neg (by omega), Int.toNat_natCast]

/-- The spec's "well-formed version string": an optional `v` prefix, three
numeric dot-separated segments, an optional `-prerelease` and an optional
`+build` (the spec's data-model invariant allows at most one `-` and one `+`
separator in textual form, so the qualifier texts contain neither). -/
def renderedForm (useV : Bool) (a b c : Nat) (pre bld : List Char) : List Char :=
  (if useV then ['v'] else [])
    ++ (natRepr a ++ '.' :: (natRepr b ++ '.' :: (natRepr c
      ++ ((if pre = [] then [] else '-' :: pre) ++ (if bld = [] then [] else '+' :: bld)))))

theorem segLoop_abc (a b c : Nat) (ha : a < 2 ^ 63) (hb : b < 2 ^ 63) (hc : c < 2 ^ 63)
    (T : List Char) (hspan : spanDigits (natRepr c ++ T) = (natRepr c, T)) :
    segLoop 0 [natRepr a, natRepr b, natRepr c ++ T] ⟨0, 0, 0, [], []⟩ []
      = some (⟨Int.ofNat a, Int.ofNat b, Int.ofNat c, [], []⟩, T) := by
  simp [segLoop, parseIntGo_natRepr a ha, parseIntGo_natRepr b hb, hspan,
    parseIntGo_natRepr c hc]

theorem intRepr_natCast (n : Nat) : intRepr (n : Int) = natRepr n := by
  unfold intRepr
  rw [if_neg (by omega), Int.toNat_natCast]

theorem parseCore_wellFormed (a b c : Nat) (pre bld : List Char)
    (ha : a < 2 ^ 63) (hb : b < 2 ^ 63) (hc : c < 2 ^ 63)
    (hpre : ∀ ch ∈ pre, ch ≠ '-' ∧ ch ≠ '+')
    (hbld : ∀ ch ∈ bld, ch ≠ '-' ∧ ch ≠ '+') :
    parseCore (natRepr a ++ '.' :: (natRepr b ++ '.' :: (natRepr c
        ++ ((if pre = [] then [] else '-' :: pre) ++ (if bld = [] then [] else '+' :: bld)))))
      = ParseResult.ok ⟨Int.ofNat a, Int.ofNat b, Int.ofNat c, pre, bld⟩ := by
  have hAdots := natRepr_no_dot a
  have hBdots := natRepr_no_dot b
  by_cases hp : pre = []
  · by_cases hq : bld = []
    · -- no qualifiers: the tail is empty
      rw [if_pos hp, if_pos hq, hp, hq]
      simp only [List.nil_append, List.append_nil]
      have hspan : spanDigits (natRepr c ++ []) = (natRepr c, []) := by
        simp [spanDigits_all _ (natRepr_all_digits c)]
      have hseg := segLoop_abc a b c ha hb hc [] hspan
      have hsplit := splitN3_three (natRepr a) (natRepr b) (natRepr c ++ []) hAdots hBdots
      simp only [List.append_nil] at hseg hsplit
      simp only [parseCore, hsplit, hseg]
    · -- build only: the tail is '+' :: bld
      rw [if_pos hp, if_neg hq, hp]
      simp only [List.nil_append]
      have hspan : spanDigits (natRepr c ++ '+' :: bld) = (natRepr c, '+' :: bld) :=
        spanDigits_split _ '+' bld (natRepr_all_digits c) (by decide)
      have hseg := segLoop_abc a b c ha hb hc ('+' :: bld) hspan
      have hsplit := splitN3_three (natRepr a) (natRepr b) (natRepr c ++ '+' :: bld)
        hAdots hBdots
      have htl : tailLoop bld (some Buf.build) [] [] = some ([], bld) := by
        have h2 := tailLoop_build bld hbld [] [] []
        simpa using h2
      simp only [parseCore, hsplit, hseg]
      simp [tailLoop, htl]
  · by_cases hq : bld = []
    · -- prerelease only: the tail is '-' :: pre
      rw [if_neg hp, if_pos hq, hq]
      simp only [List.append_nil]
      have hspan : spanDigits (natRepr c ++ '-' :: pre) = (natRepr c, '-' :: pre) :=
        spanDigits_split _ '-' pre (natRepr_all_digits c) (by decide)
      have hseg := segLoop_abc a b c ha hb hc ('-' :: pre) hspan
      have hsplit := splitN3_three (natRepr a) (natRepr b) (natRepr c ++ '-' :: pre)
        hAdots hBdots
      have htl : tailLoop pre (some Buf.pre) [] [] = some (pre, []) := by
        have h2 := tailLoop_pre pre hpre [] [] []
        simpa using h2
      simp only [parseCore, hsplit, hseg]
      simp [tailLoop, htl]
    · -- both qualifiers: the tail is '-' :: (pre ++ '+' :: bld)
      rw [if_neg hp, if_neg hq]
      have hshape : (('-' :: pre) ++ ('+' :: bld) : List Char)
          = '-' :: (pre ++ '+' :: bld) := by simp
      rw [hshape]
      have hspan : spanDigits (natRepr c ++ '-' :: (pre ++ '+' :: bld))
          = (natRepr c, '-' :: (pre ++ '+' :: bld)) :=
        spanDigits_split _ '-' (pre ++ '+' :: bld) (natRepr_all_digits c) (by decide)
      have hseg := segLoop_abc a b c ha hb hc ('-' :: (pre ++ '+' :: bld)) hspan
      have hsplit := splitN3_three (natRepr a) (natRepr b)
        (natRepr c ++ '-' :: (pre ++ '+' :: bld)) hAdots hBdots
      have htl : tailLoop (pre ++ '+' :: bld) (some Buf.pre) [] [] = some (pre, bld) := by
        rw [tailLoop_pre pre hpre ('+' :: bld) [] []]
        have h2 := tailLoop_build bld hbld [] pre []
        simp only [tailLoop]
        simpa using h2
      simp only [parseCore, hsplit, hseg]
      simp [tailLoop, htl]

theorem semverString_ofNat (a b c : Nat) (pre bld : List Char) :
    semverString ⟨Int.ofNat a, Int.ofNat b, Int.ofNat c, pre, bld⟩
      = 'v' :: (natRepr a ++ '.' :: (natRepr b ++ '.' :: (natRepr c
          ++ ((if pre = [] then [] else '-' :: pre)
            ++ (if bld = [] then [] else '+' :: bld))))) := by
  simp [semverString, intRepr_natCast]

/-- C1: for every well-formed version string `s` (optionally `v`-prefixed,
three numeric dot-separated segments, optional `-prerelease`, optional
`+build`, optional both — captured by `renderedForm`, with the numeric
segments in `int64` range and the qualifier texts free of the `-` / `+`
separators, as the spec's at-most-one-separator invariant requires),
rendering (`semverString`) the result of parsing `s` (`parseSemver`)
reproduces the canonical `v`-prefixed form of `s` exactly. -/
theorem parse_render_roundtrip (useV : Bool) (a b c : Nat) (pre bld : List Char)
    (ha : a < 2 ^ 63) (hb : b < 2 ^ 63) (hc : c < 2 ^ 63)
    (hpre : ∀ ch ∈ pre, ch ≠ '-' ∧ ch ≠ '+')
    (hbld : ∀ ch ∈ bld, ch ≠ '-' ∧ ch ≠ '+') :
    parseSemver (renderedForm useV a b c pre bld)
        = ParseResult.ok ⟨Int.ofNat a, Int.ofNat b, Int.ofNat c, pre, bld⟩
      ∧ semverString ⟨Int.ofNat a, Int.ofNat b, Int.ofNat c, pre, bld⟩
        = renderedForm true a b c pre bld := by
  have hcore := parseCore_wellFormed a b c pre bld ha hb hc hpre hbld
  have hform : renderedForm true a b c pre bld
      = 'v' :: (natRepr a ++ '.' :: (natRepr b ++ '.' :: (natRepr c
        ++ ((if pre = [] then [] else '-' :: pre)
          ++ (if bld = [] then [] else '+' :: bld))))) := rfl
  refine ⟨?_, ?_⟩
  · cases useV with
    | true =>
      rw [hform]
      simp only [parseSemver]
      rw [if_pos trivial]
      exact hcore
    | false =>
      obtain ⟨c0, t0, hct, _, hv, _, _⟩ := natRepr_head a
      have hform' : renderedForm false a b c pre bld
          = natRepr a ++ '.' :: (natRepr b ++ '.' :: (natRepr c
            ++ ((if pre = [] then [] else '-' :: pre)
              ++ (if bld = [] then [] else '+' :: bld)))) := rfl
      rw [hform', hct, List.cons_append]
      simp only [parseSemver]
      rw [if_neg hv, ← List.cons_append, ← hct]
      exact hcore
  · rw [semverString_ofNat, hform]

/-- C1 witness: the round-trip at the concrete well-formed string
`v1.2.3-rc+x`. -/
theorem parse_render_roundtrip_witness :
    parseSemver (renderedForm true 1 2 3 ['r', 'c'] ['x'])
        = ParseResult.ok ⟨Int.ofNat 1, Int.ofNat 2, Int.ofNat 3, ['r', 'c'], ['x']⟩
      ∧ semverString ⟨Int.ofNat 1, Int.ofNat 2, Int.ofNat 3, ['r', 'c'], ['x']⟩
        = renderedForm true 1 2 3 ['r', 'c'] ['x'] :=
  parse_render_roundtrip true 1 2 3 ['r', 'c'] ['x'] (by decide) (by decide) (by decide)
    (by decide) (by decide)

/-- C2: for every semver value and every bump kind, `bump` clears both
`prerelease` and `build`, and: a patch bump increments only `patch`; a minor
bump increments `minor` and zeroes `patch`; a major bump increments `major`
and zeroes both `minor` and `patch`. -/
theorem bump_spec (sem : Semver) :
    bump sem VKind.patch = ⟨sem.major, sem.minor, sem.patch + 1, [], []⟩
      ∧ bump sem VKind.minor = ⟨sem.major, sem.minor + 1, 0, [], []⟩
      ∧ bump sem VKind.major = ⟨sem.major + 1, 0, 0, [], []⟩ :=
  ⟨rfl, rfl, rfl⟩

/-- C10: `parseSemver` reads `s[0]` with no length guard, so on the empty
string it neither succeeds nor returns a parse error: it panics
(index out of range), modelled by the `crash` outcome. -/
theorem parseSemver_nil_crash : parseSemver [] = ParseResult.crash := rfl

/-- C3 counterexample: for `gittag` (`CreateAnnotatedTag`) the subprocess
fails (`cmd.Run` returns an `exec` error reading `exit 1`) while git printed
a diagnostic beginning `fatal`; the returned error is the `exec` error, whose
message is not the first line of the diagnostic output. -/
theorem gittag_message_counterexample :
    gittagModel ⟨some ⟨['e', 'x', 'i', 't', ' ', '1']⟩, [], ['f', 'a', 't', 'a', 'l', '\n', 'm']⟩
        = some ⟨['e', 'x', 'i', 't', ' ', '1']⟩
      ∧ firstLine ['f', 'a', 't', 'a', 'l', '\n', 'm'] = ['f', 'a', 't', 'a', 'l']
      ∧ (['e', 'x', 'i', 't', ' ', '1'] : List Char) ≠ ['f', 'a', 't', 'a', 'l'] :=
  ⟨rfl, rfl, by decide⟩

/-- C3 amended: on a non-zero exit, `git` (used by `DescribeLatestTag` and
`CreateArchive`) and `gitshortlog` (`Shortlog`) return an error that is
exactly the first line of the captured stderr, but `gittag`
(`CreateAnnotatedTag`) does not capture stderr and propagates the subprocess
error unchanged. -/
theorem gateway_error_first_line (e : ExecError) (out st : List Char) :
    gitModel ⟨some e, out, st⟩ = Except.error (firstLine st)
      ∧ gitshortlogModel none ⟨some e, out, st⟩ = Except.error (Err.toolMsg (firstLine st))
      ∧ gittagModel ⟨some e, out, st⟩ = some e :=
  ⟨rfl, rfl, rfl⟩

theorem natRepr_zero : natRepr 0 = ['0'] := rfl

theorem natRepr_one : natRepr 1 = ['1'] := by
  unfold natRepr
  rw [if_neg (by decide), Nat.digits_of_lt 10 1 (by decide) (by decide)]
  rfl

theorem semverString_v001 : semverString ⟨0, 0, 1, [], []⟩ = ['v', '0', '.', '0', '.', '1'] := by
  simp [semverString, intRepr, natRepr_zero, natRepr_one]

/-- An environment in which `git describe` fails for a reason that is plainly
not "no tags found" (stderr says the directory is not a git repository),
while every other stage succeeds. -/
def envDescribeFails : Env :=
  ⟨none, ['v', 'i'], none, none, [['n', 'o', 't', 'e']],
    ⟨some ⟨['e', 'x', 'i', 't', ' ', '1', '2', '8']⟩, [],
      ['f', 'a', 't', 'a', 'l', ':', ' ', 'n', 'o', 't', ' ', 'a', ' ', 'g', 'i', 't',
        ' ', 'r', 'e', 'p', 'o', '\n']⟩,
    ⟨none, [], []⟩, none,
    fun _ => ⟨none, ['l', 'o', 'g'], []⟩,
    fun _ => none,
    fun _ => ⟨none, [], []⟩⟩

/-- C4 counterexample: `git describe` fails with a non-not-found error, yet
`release` does not abort with that error: it completes as a first release,
returning `v0.0.1` with the all-history range. -/
theorem release_describe_error_counterexample :
    release VKind.patch false [] envDescribeFails
      = RRes.ok ⟨⟨0, 0, 1, [], []⟩, headRev,
          ['n', 'o', 't', 'e', '\n'] ++ changelogSep ++ ['l', 'o', 'g'],
          ['v', '0', '.', '0', '.', '1']⟩ := by
  simp [release, envDescribeFails, openInEditorModel, resolvePrev, gitModel, applyBuild,
    gitshortlogModel, collectNotes, isComment, bump, semverString_v001, changelogSep]

/-- C4 amended: in the code every `git describe` failure — whatever its
reason — is swallowed during version resolution: the previous version
defaults to the zero version with the all-history range `HEAD`, and no error
is raised at this stage. -/
theorem resolvePrev_error_default (e : ExecError) (out st : List Char) :
    resolvePrev ⟨some e, out, st⟩ = ResolveRes.ok ⟨0, 0, 0, [], []⟩ headRev := rfl

/-- C5 counterexample: `strconv.ParseInt` accepts a signed segment, so
`parseSemver` accepts `-1.2.3` and produces a negative `major`. -/
theorem parse_negative_major_counterexample :
    parseSemver ['-', '1', '.', '2', '.', '3'] = ParseResult.ok ⟨-1, 2, 3, [], []⟩
      ∧ (⟨-1, 2, 3, [], []⟩ : Semver).major < 0 :=
  ⟨by decide, by decide⟩

theorem isDigitGo_not_sign (ch : Char) (h : isDigitGo ch = true) : ch ≠ '+' ∧ ch ≠ '-' := by
  constructor <;> rintro rfl <;> exact absurd h (by decide)

theorem parseIntGo_digits_nonneg (l : List Char) (h : ∀ ch ∈ l, isDigitGo ch = true)
    (n : Int) (hn : parseIntGo l = some n) : 0 ≤ n := by
  cases l with
  | nil => exact absurd hn (by simp [parseIntGo])
  | cons ch cs =>
    obtain ⟨hp, hm⟩ := isDigitGo_not_sign ch (h ch (by simp))
    simp only [parseIntGo, if_neg hp, if_neg hm] at hn
    cases hu : parseUintGo (ch :: cs) with
    | none => rw [hu] at hn; cases hn
    | some v =>
      rw [hu] at hn
      simp only at hn
      by_cases hb : v ≤ 2 ^ 63 - 1
      · rw [if_pos hb] at hn
        injection hn with hn'
        rw [← hn', Int.ofNat_eq_natCast]
        exact Int.natCast_nonneg v
      · rw [if_neg hb] at hn; cases hn

theorem segLoop_patch_nonneg (parts : List (List Char)) :
    ∀ (i : Nat) (sem : Semver) (tl : List Char) (res : Semver × List Char),
      segLoop i parts sem tl = some res → 0 ≤ sem.patch → 0 ≤ res.1.patch := by
  induction parts with
  | nil =>
    intro i sem tl res h h0
    simp only [segLoop] at h
    injection h with h'
    rw [← h']
    exact h0
  | cons part rest ih =>
    intro i sem tl res h h0
    simp only [segLoop] at h
    cases hpi : parseIntGo (if i = 2 then (spanDigits part).1 else part) with
    | none => rw [hpi] at h; cases h
    | some n =>
      rw [hpi] at h
      by_cases hi2 : i = 2
      · subst hi2
        have hn : 0 ≤ n := by
          rw [if_pos rfl] at hpi
          exact parseIntGo_digits_nonneg _ (spanDigits_fst_digits part) n hpi
        refine ih _ _ _ _ h ?_
        simp only [if_neg (by decide : ¬(2 : Nat) = 0), if_neg (by decide : ¬(2 : Nat) = 1),
          if_pos rfl]
        exact hn
      · refine ih _ _ _ _ h ?_
        by_cases hi0 : i = 0
        · subst hi0; simpa using h0
        · by_cases hi1 : i = 1
          · subst hi1; simpa using h0
          · simp only [if_neg hi0, if_neg hi1, if_neg hi2]; exact h0

theorem parseCore_patch_nonneg (s' : List Char) (sem : Semver)
    (h : parseCore s' = ParseResult.ok sem) : 0 ≤ sem.patch := by
  unfold parseCore at h
  cases hseg : segLoop 0 (splitN '.' 3 s') ⟨0, 0, 0, [], []⟩ [] with
  | none => rw [hseg] at h; cases h
  | some st =>
    obtain ⟨sem1, tl⟩ := st
    rw [hseg] at h
    have hp1 : 0 ≤ sem1.patch :=
      segLoop_patch_nonneg _ 0 _ [] (sem1, tl) hseg (by norm_num)
    cases tl with
    | nil =>
      simp only at h
      injection h with h'
      rw [← h']
      exact hp1
    | cons t0 ts =>
      simp only at h
      by_cases hg : t0 ≠ '-' ∧ t0 ≠ '+'
      · rw [if_pos hg] at h; cases h
      · rw [if_neg hg] at h
        cases htl : tailLoop (t0 :: ts) none [] [] with
        | none => rw [htl] at h; cases h
        | some pb =>
          obtain ⟨p, b⟩ := pb
          rw [htl] at h
          injection h with h'
          rw [← h']
          exact hp1

/-- C5 amended: on every successful parse the `patch` field is non-negative
(its text is a digits-only prefix), but `major` and `minor` need not be:
`strconv.ParseInt` accepts a leading sign, so e.g. `-1.2.3` parses with a
negative `major`. -/
theorem parse_patch_nonneg (s : List Char) (sem : Semver)
    (h : parseSemver s = ParseResult.ok sem) : 0 ≤ sem.patch := by
  cases s with
  | nil => exact absurd h (by simp [parseSemver])
  | cons c0 rest => exact parseCore_patch_nonneg _ sem h

/-- C5 witness: the amended theorem applied at `1.2.3`. -/
theorem parse_patch_nonneg_witness : 0 ≤ (Semver.mk 1 2 3 [] []).patch :=
  parse_patch_nonneg ['1', '.', '2', '.', '3'] ⟨1, 2, 3, [], []⟩ (by decide)

/-- C6 counterexample: `strings.SplitN` produces fewer than three segments
for `1.2` and the loop simply never reaches the patch segment, so
`parseSemver` succeeds (patch defaulting to 0) instead of returning a parse
error. -/
theorem parse_two_segment_counterexample :
    parseSemver ['1', '.', '2'] = ParseResult.ok ⟨1, 2, 0, [], []⟩ := by decide

/-- C6 amended: `parseSemver` does not require three segments: any input of
exactly two numeric dot-separated segments parses successfully, with `patch`
defaulting to 0; a parse error arises only from a non-numeric segment or a
malformed qualifier tail. -/
theorem parse_two_segments (a b : Nat) (ha : a < 2 ^ 63) (hb : b < 2 ^ 63) :
    parseSemver (natRepr a ++ '.' :: natRepr b)
      = ParseResult.ok ⟨Int.ofNat a, Int.ofNat b, 0, [], []⟩ := by
  obtain ⟨c0, t0, hct, _, hv, _, _⟩ := natRepr_head a
  have hsplit := splitN3_two (natRepr a) (natRepr b) (natRepr_no_dot a) (natRepr_no_dot b)
  have hseg : segLoop 0 [natRepr a, natRepr b] ⟨0, 0, 0, [], []⟩ []
      = some (⟨Int.ofNat a, Int.ofNat b, 0, [], []⟩, []) := by
    simp [segLoop, parseIntGo_natRepr a ha, parseIntGo_natRepr b hb]
  rw [hct, List.cons_append]
  simp only [parseSemver]
  rw [if_neg hv, ← List.cons_append, ← hct]
  simp only [parseCore, hsplit, hseg]

/-- C6 witness: the amended theorem applied at `1.2`. -/
theorem parse_two_segments_witness :
    parseSemver (natRepr 1 ++ '.' :: natRepr 2)
      = ParseResult.ok ⟨Int.ofNat 1, Int.ofNat 2, 0, [], []⟩ :=
  parse_two_segments 1 2 (by decide) (by decide)

/-- C7: when `git describe` reports its "no prior tag" failure, the previous
version defaults to the zero version, the changelog range is all history up
to `HEAD`, and a patch bump with no prerelease label and no build metadata
makes `release` succeed with the final version string `v0.0.1`. -/
theorem first_release_default (env : Env) (e : ExecError)
    (h1 : env.tempErr = none) (h2 : ¬env.editor = []) (h3 : env.editorRes = none)
    (h4 : env.scanErr = none) (h5 : env.describe.err = some e)
    (h6 : env.changelogTempErr = none) (h7 : (env.shortlogRun headRev).err = none)
    (h8 : env.tagRun ['v', '0', '.', '0', '.', '1'] = none)
    (h9 : (env.archiveRun ['v', '0', '.', '0', '.', '1']).err = none) :
    resolvePrev env.describe = ResolveRes.ok ⟨0, 0, 0, [], []⟩ headRev
      ∧ release VKind.patch false [] env
        = RRes.ok ⟨⟨0, 0, 1, [], []⟩, headRev,
            collectNotes env.notesLines ++ changelogSep ++ (env.shortlogRun headRev).stdout,
            ['v', '0', '.', '0', '.', '1']⟩ := by
  have hres : resolvePrev env.describe = ResolveRes.ok ⟨0, 0, 0, [], []⟩ headRev := by
    unfold resolvePrev gitModel
    rw [h5]
  have hop : openInEditorModel env.editor env.editorRes = none := by
    unfold openInEditorModel
    rw [if_neg h2, h3]
  refine ⟨hres, ?_⟩
  have hsem : ({ bump (⟨0, 0, 0, [], []⟩ : Semver) VKind.patch
      with prerelease := ([] : List Char) } : Semver) = ⟨0, 0, 1, [], []⟩ := rfl
  simp only [release, h1, hop, h4, hres, hsem, applyBuild, Bool.false_eq_true, if_false,
    gitshortlogModel, h6, h7, semverString_v001, h8, gitModel, h9]

/-- A concrete environment for the C7 witness: no prior tag, every other
stage succeeding. -/
def envFirstRelease : Env :=
  ⟨none, ['v', 'i'], none, none, [['I', 'n', 'i', 't']],
    ⟨some ⟨['e', '1']⟩, [], ['f', 'a', 't', 'a', 'l', '\n']⟩,
    ⟨none, [], []⟩, none,
    fun _ => ⟨none, ['l', 'o', 'g'], []⟩,
    fun _ => none,
    fun _ => ⟨none, [], []⟩⟩

/-- C7 witness: the theorem applied at the concrete environment. -/
theorem first_release_default_witness :
    resolvePrev envFirstRelease.describe = ResolveRes.ok ⟨0, 0, 0, [], []⟩ headRev
      ∧ release VKind.patch false [] envFirstRelease
        = RRes.ok ⟨⟨0, 0, 1, [], []⟩, headRev,
            collectNotes envFirstRelease.notesLines ++ changelogSep
              ++ (envFirstRelease.shortlogRun headRev).stdout,
            ['v', '0', '.', '0', '.', '1']⟩ :=
  first_release_default envFirstRelease ⟨['e', '1']⟩ rfl (by decide) rfl rfl rfl rfl rfl rfl rfl

theorem linesOfAux_line : ∀ l : List Char, '\n' ∉ l →
    ∀ rest cur, linesOfAux (l ++ '\n' :: rest) cur = (cur ++ l) :: linesOfAux rest [] := by
  intro l
  induction l with
  | nil => intro _ rest cur; simp [linesOfAux]
  | cons c cs ih =>
    intro h rest cur
    have hc : ¬c = '\n' := fun hcc => h (by rw [hcc]; simp)
    simp only [List.cons_append, linesOfAux, if_neg hc, List.append_eq]
    rw [ih (fun hm => h (by simp [hm])) rest (cur ++ [c])]
    simp

theorem collectNotes_lines : ∀ input : List (List Char), (∀ l ∈ input, '\n' ∉ l) →
    linesOf (collectNotes input) = input.filter (fun l => !isComment l) := by
  intro input
  induction input with
  | nil => intro _; rfl
  | cons l ls ih =>
    intro h
    have hl := h l (by simp)
    have hrest := ih (fun x hx => h x (by simp [hx]))
    by_cases hc : isComment l
    · rw [collectNotes, if_pos hc, hrest, List.filter_cons]
      simp [hc]
    · rw [collectNotes, if_neg hc]
      unfold linesOf at hrest
      have hshape : ((l ++ ['\n']) ++ collectNotes ls : List Char)
          = l ++ '\n' :: collectNotes ls := by simp
      rw [linesOf, hshape, linesOfAux_line l hl (collectNotes ls) [], List.nil_append,
        hrest, List.filter_cons]
      simp [hc]

/-- C8: for every sequence of lines in the notes buffer, the collected note
text contains no line whose first character is `#`, and every other line —
including empty lines — is preserved in its original relative order (its
scanner-style line decomposition is exactly the input with the `#` lines
filtered out). -/
theorem comment_stripping (input : List (List Char)) (h : ∀ l ∈ input, '\n' ∉ l) :
    linesOf (collectNotes input) = input.filter (fun l => !isComment l)
      ∧ ∀ l ∈ linesOf (collectNotes input), isComment l = false := by
  have hmain := collectNotes_lines input h
  refine ⟨hmain, ?_⟩
  rw [hmain]
  intro l hl
  have hmem := List.of_mem_filter hl
  simpa using hmem

/-- C8 witness: the theorem applied at a buffer with a comment line, a blank
line and an ordinary line. -/
theorem comment_stripping_witness :
    linesOf (collectNotes [['#', 'a'], [], ['x']])
        = List.filter (fun l => !isComment l) [['#', 'a'], [], ['x']]
      ∧ ∀ l ∈ linesOf (collectNotes [['#', 'a'], [], ['x']]), isComment l = false :=
  comment_stripping [['#', 'a'], [], ['x']] (by decide)

/-- C9 counterexample: a lookup output with no trailing newline, e.g. `abc`:
the code drops the last character unconditionally, producing `ab`, which is
not the output with a trailing newline trimmed (`abc`). -/
theorem build_truncation_counterexample :
    applyBuild true ⟨none, ['a', 'b', 'c'], []⟩ ⟨0, 0, 1, [], []⟩
        = Except.ok ⟨0, 0, 1, [], ['a', 'b']⟩
      ∧ trimSuffixNl ['a', 'b', 'c'] = ['a', 'b', 'c']
      ∧ (['a', 'b'] : List Char) ≠ ['a', 'b', 'c'] := by
  refine ⟨rfl, rfl, by decide⟩

/-- C9 amended: when build metadata is requested and the lookup succeeds, the
`build` field is the lookup output with its **last character** removed when
non-empty (the code truncates unconditionally); this coincides with trimming
a trailing newline exactly when the output does end in `'\n'`. -/
theorem build_metadata_truncated (res : CmdResult) (sem : Semver) (h : res.err = none) :
    applyBuild true res sem
        = Except.ok { sem with
            build := if res.stdout = [] then res.stdout else res.stdout.dropLast }
      ∧ (res.stdout.getLast? = some '\n' →
          (if res.stdout = [] then res.stdout else res.stdout.dropLast)
            = trimSuffixNl res.stdout) := by
  constructor
  · simp [applyBuild, gitModel, h]
  · intro hl
    have hne : res.stdout ≠ [] := by
      intro he
      rw [he] at hl
      cases hl
    rw [if_neg hne]
    unfold trimSuffixNl
    rw [if_pos hl]

/-- C9 witness: the amended theorem applied at the output `ab\n`. -/
theorem build_metadata_truncated_witness :
    applyBuild true ⟨none, ['a', 'b', '\n'], []⟩ ⟨1, 0, 0, [], []⟩
        = Except.ok { (⟨1, 0, 0, [], []⟩ : Semver) with
            build := if (['a', 'b', '\n'] : List Char) = [] then ['a', 'b', '\n']
              else (['a', 'b', '\n'] : List Char).dropLast }
      ∧ ((['a', 'b', '\n'] : List Char).getLast? = some '\n' →
          (if (['a', 'b', '\n'] : List Char) = [] then (['a', 'b', '\n'] : List Char)
            else (['a', 'b', '\n'] : List Char).dropLast) = trimSuffixNl ['a', 'b', '\n']) :=
  build_metadata_truncated ⟨none, ['a', 'b', '\n'], []⟩ ⟨1, 0, 0, [], []⟩ rfl
